import Mathlib

/-!
Verification development for the pywikitools resourcesbot data structures
(`pywikitools/resourcesbot/data_structures.py`): FileInfo / WorksheetInfo /
LanguageInfo, the `compare` change-detection diff, and the custom JSON
codec (`json_decode` / `WorksheetInfoEncoder`).

Python `datetime` values are modelled by the `DateTime` structure below;
`datetime.fromisoformat` (pre-3.11 CPython, restricted to whole-minute UTC
offsets, which is all `isoformat` of such values ever prints) and
`datetime.isoformat` are modelled by executable functions over character
lists.
-/

namespace PWT

/-- Model of a Python `datetime`: wall-clock fields plus an optional
UTC offset in whole minutes (`none` = a naive datetime). -/
structure DateTime where
  year : Nat
  month : Nat
  day : Nat
  hour : Nat
  minute : Nat
  second : Nat
  microsecond : Nat
  offset : Option Int
deriving DecidableEq, Repr

/-- `datetime(1970, 1, 1)`: the fallback timestamp used by `FileInfo`. -/
def epochDT : DateTime := ⟨1970, 1, 1, 0, 0, 0, 0, none⟩

/-- Is `c` an ASCII decimal digit? -/
def isDig (c : Char) : Bool := 48 ≤ c.toNat && c.toNat ≤ 57

/-- The ASCII digit character for `d` (meaningful for `d < 10`). -/
def digitChar (d : Nat) : Char := Char.ofNat (48 + d)

/-- Zero-padded big-endian decimal rendering of `n` on exactly `k` digits
(the low `k` digits of `n`), as Python's `%0kd` formatting produces for
`n < 10^k`. -/
def padDigits : Nat → Nat → List Char
  | 0, _ => []
  | k + 1, n => digitChar (n / 10 ^ k) :: padDigits k (n % 10 ^ k)

/-- Read exactly `k` decimal digits, accumulating their value onto `acc`. -/
def readDigitsAux : Nat → Nat → List Char → Option (Nat × List Char)
  | 0, acc, l => some (acc, l)
  | _ + 1, _, [] => none
  | k + 1, acc, c :: l =>
      if isDig c then readDigitsAux k (acc * 10 + (c.toNat - 48)) l else none

/-- Read exactly `k` decimal digits from the front of `l`. -/
def readDigits (k : Nat) (l : List Char) : Option (Nat × List Char) :=
  readDigitsAux k 0 l

/-- Does `l` start with an ASCII digit? -/
def digitStarts : List Char → Bool
  | [] => false
  | c :: _ => isDig c

/-- Parse the date part `YYYY-MM-DD` of an ISO-8601 string
(models the date step of CPython's `datetime.fromisoformat`). -/
def parseDate (l : List Char) : Option (Nat × Nat × Nat × List Char) := do
  let (y, l1) ← readDigits 4 l
  match l1 with
  | '-' :: l2 =>
      let (mo, l3) ← readDigits 2 l2
      match l3 with
      | '-' :: l4 =>
          let (d, l5) ← readDigits 2 l4
          some (y, mo, d, l5)
      | _ => none
  | _ => none

/-- Parse a fractional-second field of exactly 3 or 6 digits (the two widths
CPython's pre-3.11 `fromisoformat` accepts), returning microseconds. -/
def parseFrac (l : List Char) : Option (Nat × List Char) :=
  match readDigits 6 l with
  | some (v, rest) => if digitStarts rest then none else some (v, rest)
  | none =>
      match readDigits 3 l with
      | some (v, rest) => if digitStarts rest then none else some (v * 1000, rest)
      | none => none

/-- Parse an optional trailing UTC offset `±HH:MM` (whole minutes; the only
shape `isoformat` of such offsets prints). An empty remainder means a naive
datetime; anything else must be a full, in-range offset. -/
def parseTZ : List Char → Option (Option Int)
  | [] => some none
  | c :: l =>
      if c = '+' ∨ c = '-' then
        match readDigits 2 l with
        | some (h, l1) =>
            match l1 with
            | ':' :: l2 =>
                match readDigits 2 l2 with
                | some (m, l3) =>
                    if l3 = [] then
                      if h * 60 + m < 1440 then
                        some (some (if c = '-' then -(h * 60 + m : Int) else (h * 60 + m : Int)))
                      else none
                    else none
                | none => none
            | _ => none
        | none => none
      else none

/-- Parse the time-of-day part `HH[:MM[:SS[.fff[fff]]]]` followed by an
optional UTC offset. -/
def parseTimePart (l : List Char) : Option (Nat × Nat × Nat × Nat × Option Int) := do
  let (h, l1) ← readDigits 2 l
  match l1 with
  | ':' :: l2 =>
      let (mi, l3) ← readDigits 2 l2
      match l3 with
      | ':' :: l4 =>
          let (s, l5) ← readDigits 2 l4
          match l5 with
          | [] =>
              let tz ← parseTZ []
              some (h, mi, s, 0, tz)
          | c :: l6 =>
              if c = '.' then do
                let (us, l7) ← parseFrac l6
                let tz ← parseTZ l7
                some (h, mi, s, us, tz)
              else do
                let tz ← parseTZ (c :: l6)
                some (h, mi, s, 0, tz)
      | _ =>
          let tz ← parseTZ l3
          some (h, mi, 0, 0, tz)
  | _ =>
      let tz ← parseTZ l1
      some (h, 0, 0, 0, tz)

/-- Is `y` a leap year (proleptic Gregorian, as Python's `datetime`)? -/
def isLeap (y : Nat) : Bool := y % 4 = 0 && (y % 100 ≠ 0 || y % 400 = 0)

/-- Days in month `m` of year `y`. -/
def daysInMonth (y m : Nat) : Nat :=
  if m = 2 then (if isLeap y then 29 else 28)
  else if m = 4 ∨ m = 6 ∨ m = 9 ∨ m = 11 then 30
  else 31

/-- The range validation the `datetime` constructor performs. -/
def validDT (y mo d h mi s us : Nat) (off : Option Int) : Bool :=
  1 ≤ y && y ≤ 9999 && 1 ≤ mo && mo ≤ 12 && 1 ≤ d && d ≤ daysInMonth y mo &&
  h < 24 && mi < 60 && s < 60 && us < 1000000 &&
  (match off with
   | none => true
   | some o => o.natAbs < 1440)

/-- Model of CPython's (pre-3.11) `datetime.fromisoformat` on a character
list: `YYYY-MM-DD[<sep>HH[:MM[:SS[.fff[fff]]]][±HH:MM]]`, with the
constructor's range validation. -/
def fromisoformatL (l : List Char) : Option DateTime := do
  let (y, mo, d, rest) ← parseDate l
  match rest with
  | [] =>
      if validDT y mo d 0 0 0 0 none then some ⟨y, mo, d, 0, 0, 0, 0, none⟩ else none
  | _ :: tl => do
      let (h, mi, s, us, tz) ← parseTimePart tl
      if validDT y mo d h mi s us tz then some ⟨y, mo, d, h, mi, s, us, tz⟩ else none

/-- Model of `datetime.fromisoformat`. -/
def fromisoformat (s : String) : Option DateTime := fromisoformatL s.data

/-- `str.replace('Z', '+00:00')` at the character level: every occurrence
of `Z` (Python's `replace` substitutes all of them) becomes `+00:00`. -/
def replaceZ : List Char → List Char
  | [] => []
  | c :: tl =>
      if c = 'Z' then '+' :: '0' :: '0' :: ':' :: '0' :: '0' :: replaceZ tl
      else c :: replaceZ tl

/-- `timestamp.replace('Z', '+00:00')` on strings. -/
def replaceZstr (s : String) : String := String.mk (replaceZ s.data)

/-- The fractional-second field `isoformat` prints: empty when the
microsecond count is zero, else `.ffffff`. -/
def fracL (us : Nat) : List Char :=
  if us = 0 then [] else '.' :: padDigits 6 us

/-- The UTC-offset suffix `isoformat` prints: empty for naive datetimes,
else `±HH:MM`. -/
def tzL : Option Int → List Char
  | none => []
  | some o =>
      [if o < 0 then '-' else '+'] ++ padDigits 2 (o.natAbs / 60) ++
        [':'] ++ padDigits 2 (o.natAbs % 60)

/-- Model of `datetime.isoformat` (character list):
`YYYY-MM-DDTHH:MM:SS[.ffffff][±HH:MM]` — microseconds printed only when
nonzero, offset printed only for aware datetimes. -/
def isoformatL (d : DateTime) : List Char :=
  padDigits 4 d.year ++ ['-'] ++ padDigits 2 d.month ++ ['-'] ++ padDigits 2 d.day ++
  ['T'] ++ padDigits 2 d.hour ++ [':'] ++ padDigits 2 d.minute ++ [':'] ++
  padDigits 2 d.second ++ fracL d.microsecond ++ tzL d.offset

/-- Model of `datetime.isoformat` on strings. -/
def isoformat (d : DateTime) : String := String.mk (isoformatL d)

/-- A `DateTime` the Python `datetime` constructor would accept (with a
whole-minute offset, if aware). -/
def DateTime.Valid (d : DateTime) : Prop :=
  validDT d.year d.month d.day d.hour d.minute d.second d.microsecond d.offset = true

instance (d : DateTime) : Decidable d.Valid :=
  inferInstanceAs (Decidable (_ = true))

/-- First-match lookup in an association list: models `data[k]` / `k in data`
on a Python dict (whose keys are unique, so first match is the match). -/
def lookupA {α : Type} : List (String × α) → String → Option α
  | [], _ => none
  | p :: rest, k => if p.1 = k then some p.2 else lookupA rest k

/-- Python dict assignment `d[k] = v` on an ordered association list:
replaces the value in place if the key exists, else appends. -/
def updateA {α : Type} (k : String) (v : α) : List (String × α) → List (String × α)
  | [] => [(k, v)]
  | p :: rest => if p.1 = k then (k, v) :: rest else p :: updateA k v rest

/-- Modelled from the spec: `fortraininglib.TranslationProgress` is not under
`src/`; the spec describes it as a record of `translated`, `fuzzy` and
`total` unit counts. -/
structure TranslationProgress where
  translated : Int
  fuzzy : Int
  total : Int
deriving DecidableEq, Repr

/-- `FileInfo`: one downloadable artifact (type, URL, timestamp). -/
structure FileInfo where
  file_type : String
  url : String
  timestamp : DateTime
deriving DecidableEq, Repr

/-- `WorksheetInfo`: one worksheet's translation state in one language.
`_files` is the ordered `file_type → FileInfo` dict. -/
structure WorksheetInfo where
  page : String
  language_code : String
  title : String
  progress : TranslationProgress
  _files : List (String × FileInfo)
deriving DecidableEq, Repr

/-- `LanguageInfo`: all worksheets of one language, as the ordered
`name → WorksheetInfo` dict. -/
structure LanguageInfo where
  language_code : String
  worksheets : List (String × WorksheetInfo)
deriving DecidableEq, Repr

/-- A dynamically-typed Python value, as the decoder and `compare`
see them: JSON leaves/containers plus the repository's objects and
`datetime` instances. -/
inductive PyVal where
  | pyNone
  | str (s : String)
  | int (n : Int)
  | dt (d : DateTime)
  | list (xs : List PyVal)
  | dict (entries : List (String × PyVal))
  | fileInfo (f : FileInfo)
  | progress (p : TranslationProgress)
  | worksheetInfo (w : WorksheetInfo)
  | languageInfo (l : LanguageInfo)

/-- The Python exceptions the modelled code can raise. -/
inductive PyError where
  | assertionError
  | attributeError
  | typeError
deriving DecidableEq, Repr

/-- `FileInfo.__init__(file_type, url, timestamp)`: a `datetime` timestamp is
stored as-is; a string first has every `Z` replaced by `+00:00`, then is
parsed with `fromisoformat`, and a `ValueError`/`TypeError` there is caught
and replaced by the `datetime(1970, 1, 1)` fallback; any other value hits
`timestamp.replace` without that attribute, and the resulting
`AttributeError` is not caught. -/
def mkFileInfo (file_type url : String) (timestamp : PyVal) : Except PyError FileInfo :=
  match timestamp with
  | .dt d => .ok ⟨file_type, url, d⟩
  | .str s => .ok ⟨file_type, url, (fromisoformat (replaceZstr s)).getD epochDT⟩
  | _ => .error .attributeError

/-- Hexadecimal digit value of `c`, if any. -/
def hexVal (c : Char) : Option Nat :=
  if 48 ≤ c.toNat ∧ c.toNat ≤ 57 then some (c.toNat - 48)
  else if 97 ≤ c.toNat ∧ c.toNat ≤ 102 then some (c.toNat - 87)
  else if 65 ≤ c.toNat ∧ c.toNat ≤ 70 then some (c.toNat - 55)
  else none

/-- `urllib.parse.unquote`, restricted to single-byte percent escapes
(multi-byte UTF-8 sequences are out of scope here: no claim depends on the
decoded text, only on the mapping structure around it). Invalid escapes are
left untouched, as `unquote` does. -/
def unquoteL : List Char → List Char
  | [] => []
  | '%' :: a :: b :: rest =>
      (match hexVal a, hexVal b with
       | some ha, some hb => Char.ofNat (16 * ha + hb) :: unquoteL rest
       | _, _ => '%' :: unquoteL (a :: b :: rest))
  | c :: rest => c :: unquoteL rest

/-- `urllib.parse.unquote` on strings. -/
def unquote (s : String) : String := String.mk (unquoteL s.data)

/-- The keyword arguments of `WorksheetInfo.add_file_info`. A
`pywikibot.page.FileInfo` (external library, used only for its `url` and
`timestamp`) is modelled as a `(url, timestamp)` pair. -/
structure AddArgs where
  file_info : Option FileInfo
  file_type : Option String
  from_pywikibot : Option (String × PyVal)

/-- `WorksheetInfo.add_file_info`: with `file_info` given, stores it under
its own `file_type`; else asserts that both `file_type` and `from_pywikibot`
are given and stores `FileInfo(file_type, unquote(url), timestamp)` under
`file_type`. -/
def WorksheetInfo.add_file_info (w : WorksheetInfo) (a : AddArgs) :
    Except PyError WorksheetInfo :=
  match a.file_info with
  | some fi =>
      .ok ⟨w.page, w.language_code, w.title, w.progress, updateA fi.file_type fi w._files⟩
  | none =>
      match a.file_type, a.from_pywikibot with
      | some ft, some pwb =>
          (mkFileInfo ft (unquote pwb.1) pwb.2).map
            (fun fi => ⟨w.page, w.language_code, w.title, w.progress, updateA ft fi w._files⟩)
      | _, _ => .error .assertionError

/-- `WorksheetInfo.get_file_infos`. -/
def WorksheetInfo.get_file_infos (w : WorksheetInfo) : List (String × FileInfo) :=
  w._files

/-- `WorksheetInfo.has_file_type`. -/
def WorksheetInfo.has_file_type (w : WorksheetInfo) (file_type : String) : Bool :=
  (lookupA w._files file_type).isSome

/-- `WorksheetInfo.get_file_type_info`. -/
def WorksheetInfo.get_file_type_info (w : WorksheetInfo) (file_type : String) :
    Option FileInfo :=
  if (lookupA w._files file_type).isSome then lookupA w._files file_type else none

/-- `LanguageInfo.add_worksheet_info`. -/
def LanguageInfo.add_worksheet_info (li : LanguageInfo) (name : String)
    (w : WorksheetInfo) : LanguageInfo :=
  ⟨li.language_code, updateA name w li.worksheets⟩

/-- `LanguageInfo.has_worksheet`. -/
def LanguageInfo.has_worksheet (li : LanguageInfo) (name : String) : Bool :=
  (lookupA li.worksheets name).isSome

/-- `LanguageInfo.get_worksheet`. -/
def LanguageInfo.get_worksheet (li : LanguageInfo) (name : String) :
    Option WorksheetInfo :=
  if (lookupA li.worksheets name).isSome then lookupA li.worksheets name else none

/-- `LanguageInfo.worksheet_has_type`. -/
def LanguageInfo.worksheet_has_type (li : LanguageInfo) (name file_type : String) : Bool :=
  match lookupA li.worksheets name with
  | some w => w.has_file_type file_type
  | none => false

/-- Modelled from the spec: `pywikitools.resourcesbot.changes.ChangeType`
is not under `src/`; the spec lists these event kinds (the `UPDATED_*` ones
reserved/disabled). -/
inductive ChangeType where
  | NEW_WORKSHEET
  | NEW_PDF
  | NEW_ODT
  | UPDATED_WORKSHEET
  | UPDATED_PDF
  | UPDATED_ODT
  | DELETED_WORKSHEET
  | DELETED_PDF
  | DELETED_ODT
deriving DecidableEq, Repr

/-- Modelled from the spec: `pywikitools.resourcesbot.changes.ChangeLog`
is not under `src/`; the spec describes it as an ordered collection of
typed change events accumulated by `add_change(worksheet, change_type)`,
modelled as the list of events in emission order. -/
def ChangeLog : Type := List (String × ChangeType)

/-- The per-file-type block of `LanguageInfo.compare` for one worksheet
present in both snapshots (the `pdf`/`odt` if-chains of the source). -/
def fileTypeChanges (title file_type : String) (info oldInfo : WorksheetInfo)
    (newType delType : ChangeType) : List (String × ChangeType) :=
  if info.has_file_type file_type then
    (if ¬ oldInfo.has_file_type file_type then [(title, newType)] else [])
  else
    (if oldInfo.has_file_type file_type then [(title, delType)] else [])

/-- The events `LanguageInfo.compare` emits while visiting one entry of
`self.worksheets`. -/
def compareEntry (old : LanguageInfo) (p : String × WorksheetInfo) :
    List (String × ChangeType) :=
  match lookupA old.worksheets p.1 with
  | some oldInfo =>
      fileTypeChanges p.1 "pdf" p.2 oldInfo ChangeType.NEW_PDF ChangeType.DELETED_PDF ++
      fileTypeChanges p.1 "odt" p.2 oldInfo ChangeType.NEW_ODT ChangeType.DELETED_ODT
  | none => [(p.1, ChangeType.NEW_WORKSHEET)]

/-- `LanguageInfo.compare(old)`: a non-`LanguageInfo` argument yields the
empty ChangeLog; else the first loop walks `self.worksheets` emitting
new-worksheet and per-file-type events, and the second loop walks
`old.worksheets` emitting deleted-worksheet events. -/
def LanguageInfo.compare (self : LanguageInfo) (old : PyVal) :
    List (String × ChangeType) :=
  match old with
  | .languageInfo o =>
      (self.worksheets.flatMap (compareEntry o)) ++
      (o.worksheets.flatMap fun p =>
        if (lookupA self.worksheets p.1).isNone
        then [(p.1, ChangeType.DELETED_WORKSHEET)] else [])
  | _ => []

/-- `LanguageInfo.list_worksheets_with_missing_pdf`: the comprehension
`[w for w in self.worksheets if not self.worksheets[w].has_file_type(pdf)]`. -/
def LanguageInfo.list_worksheets_with_missing_pdf (self : LanguageInfo) : List String :=
  (self.worksheets.map Prod.fst).filter fun w =>
    match lookupA self.worksheets w with
    | some info => ! info.has_file_type "pdf"
    | none => false

/-- `stepAdd w a`: the state of a `WorksheetInfo` after an `add_file_info`
call — the updated object on success, the unchanged object when the call
raises (the dict is only mutated after all checks pass). -/
def stepAdd (w : WorksheetInfo) (a : AddArgs) : WorksheetInfo :=
  match w.add_file_info a with
  | .ok w2 => w2
  | .error _ => w

/-- The `_files` dict keys every entry by that entry's own `file_type`. -/
def FilesKeyed (w : WorksheetInfo) : Prop :=
  ∀ p ∈ w._files, p.1 = p.2.file_type

/-- Modelled from the spec: `TranslationProgress(**data)` — the progress
record is built "from the mapping's fields directly"
(`fortraininglib.TranslationProgress` is not under `src/`). -/
def progressOfDict (data : List (String × PyVal)) : TranslationProgress :=
  ⟨(match lookupA data "translated" with | some (.int n) => n | _ => 0),
   (match lookupA data "fuzzy" with | some (.int n) => n | _ => 0),
   (match lookupA data "total" with | some (.int n) => n | _ => 0)⟩

/-- The `for file_info in data["files"]` loop of `json_decode`: asserts each
entry is an already-decoded FileInfo, then `add_file_info(file_info=...)`. -/
def addAllFiles (w : WorksheetInfo) : List PyVal → Except PyError WorksheetInfo
  | [] => .ok w
  | f :: rest =>
      match f with
      | .fileInfo fi =>
          addAllFiles
            ⟨w.page, w.language_code, w.title, w.progress,
              updateA fi.file_type fi w._files⟩ rest
      | _ => .error .assertionError

/-- The `for worksheet in data["worksheets"]` loop of `json_decode`: asserts
each entry is an already-decoded WorksheetInfo, then
`add_worksheet_info(worksheet.page, worksheet)`. -/
def addAllWorksheets (li : LanguageInfo) : List PyVal → Except PyError LanguageInfo
  | [] => .ok li
  | v :: rest =>
      match v with
      | .worksheetInfo w =>
          addAllWorksheets ⟨li.language_code, updateA w.page w li.worksheets⟩ rest
      | _ => .error .assertionError

/-- `json_decode(data)`: infer the entity from key presence, in the
source's priority order (`file_type`, `translated`, `page`, `worksheets`,
else pass the mapping through unchanged). `assert` failures are
`assertionError`; iterating a non-list or constructing with non-string
fields (shapes the encoder never produces; Python would duck-type them)
is reported as `typeError`. -/
def json_decode (data : List (String × PyVal)) : Except PyError PyVal :=
  match lookupA data "file_type" with
  | some ftv =>
      match lookupA data "url", lookupA data "timestamp" with
      | some uv, some tsv =>
          (match ftv, uv with
           | .str ft, .str u => (mkFileInfo ft u tsv).map PyVal.fileInfo
           | _, _ => .error .typeError)
      | _, _ => .error .assertionError
  | none =>
    match lookupA data "translated" with
    | some _ => .ok (.progress (progressOfDict data))
    | none =>
      match lookupA data "page" with
      | some pv =>
          match lookupA data "language_code", lookupA data "title",
              lookupA data "progress" with
          | some lv, some tv, some prv =>
              (match prv with
               | .progress pr =>
                   (match pv, lv, tv with
                    | .str p, .str lc, .str t =>
                        (match lookupA data "files" with
                         | none => .ok (.worksheetInfo ⟨p, lc, t, pr, []⟩)
                         | some (.list fs) =>
                             (addAllFiles ⟨p, lc, t, pr, []⟩ fs).map PyVal.worksheetInfo
                         | some _ => .error .typeError)
                    | _, _, _ => .error .typeError)
               | _ => .error .assertionError)
          | _, _, _ => .error .assertionError
      | none =>
        match lookupA data "worksheets" with
        | some wsv =>
            match lookupA data "language_code" with
            | some (.str lc) =>
                (match wsv with
                 | .list ws => (addAllWorksheets ⟨lc, []⟩ ws).map PyVal.languageInfo
                 | _ => .error .typeError)
            | some _ => .error .typeError
            | none => .error .assertionError
        | none => .ok (.dict data)

mutual

/-- `json.loads(..., object_hook=json_decode)`: the hook applied bottom-up,
to every JSON object of the tree, innermost first. -/
def decodeTree : PyVal → Except PyError PyVal
  | .dict es => do json_decode (← decodeEntries es)
  | .list xs => do .ok (.list (← decodeList xs))
  | v => .ok v

/-- Decode the values of a JSON object, in order. -/
def decodeEntries : List (String × PyVal) → Except PyError (List (String × PyVal))
  | [] => .ok []
  | (k, v) :: rest => do .ok ((k, ← decodeTree v) :: (← decodeEntries rest))

/-- Decode the elements of a JSON array, in order. -/
def decodeList : List PyVal → Except PyError (List PyVal)
  | [] => .ok []
  | v :: rest => do .ok ((← decodeTree v) :: (← decodeList rest))

end

/-- `WorksheetInfoEncoder.default` on a FileInfo. -/
def encodeFileInfo (f : FileInfo) : PyVal :=
  .dict [("file_type", .str f.file_type), ("url", .str f.url),
         ("timestamp", .str (isoformat f.timestamp))]

/-- `WorksheetInfoEncoder.default` on a TranslationProgress. -/
def encodeProgress (p : TranslationProgress) : PyVal :=
  .dict [("translated", .int p.translated), ("fuzzy", .int p.fuzzy),
         ("total", .int p.total)]

/-- `WorksheetInfoEncoder.default` on a WorksheetInfo: the `files` key is
emitted only when the files dict is nonempty, holding the dict's values. -/
def encodeWorksheetInfo (w : WorksheetInfo) : PyVal :=
  .dict ([("page", .str w.page), ("language_code", .str w.language_code),
          ("title", .str w.title), ("progress", encodeProgress w.progress)] ++
    (if w._files = [] then []
     else [("files", .list (w._files.map (fun p => encodeFileInfo p.2)))]))

/-- `WorksheetInfoEncoder.default` on a LanguageInfo: language code plus the
worksheets dict's values, in order. -/
def encodeLanguageInfo (l : LanguageInfo) : PyVal :=
  .dict [("language_code", .str l.language_code),
         ("worksheets", .list (l.worksheets.map (fun p => encodeWorksheetInfo p.2)))]

theorem digitChar_isDig {d : Nat} (h : d < 10) : isDig (digitChar d) = true := by
  interval_cases d <;> decide

theorem digitChar_val {d : Nat} (h : d < 10) : (digitChar d).toNat - 48 = d := by
  interval_cases d <;> decide

theorem digitChar_ne_Z {d : Nat} (h : d < 10) : digitChar d ≠ 'Z' := by
  interval_cases d <;> decide

theorem readDigitsAux_pad :
    ∀ (k n acc : Nat) (rest : List Char), n < 10 ^ k →
      readDigitsAux k acc (padDigits k n ++ rest) = some (acc * 10 ^ k + n, rest) := by
  intro k
  induction k with
  | zero =>
      intro n acc rest hn
      simp only [pow_zero, Nat.lt_one_iff] at hn
      subst hn
      simp [padDigits, readDigitsAux]
  | succ k ih =>
      intro n acc rest hn
      have h10 : 0 < (10 : Nat) ^ k := Nat.pos_pow_of_pos k (by omega)
      have hpow : (10 : Nat) ^ (k + 1) = 10 * 10 ^ k := by ring
      have hdiv : n / 10 ^ k < 10 := (Nat.div_lt_iff_lt_mul h10).mpr (by omega)
      have hmod : n % 10 ^ k < 10 ^ k := Nat.mod_lt _ h10
      have hstep : padDigits (k + 1) n ++ rest
          = digitChar (n / 10 ^ k) :: (padDigits k (n % 10 ^ k) ++ rest) := by
        simp [padDigits]
      rw [hstep]
      have hif : readDigitsAux (k + 1) acc
            (digitChar (n / 10 ^ k) :: (padDigits k (n % 10 ^ k) ++ rest))
          = readDigitsAux k (acc * 10 + n / 10 ^ k) (padDigits k (n % 10 ^ k) ++ rest) := by
        simp [readDigitsAux, digitChar_isDig hdiv, digitChar_val hdiv]
      rw [hif, ih (n % 10 ^ k) (acc * 10 + n / 10 ^ k) rest hmod]
      have hdm : 10 ^ k * (n / 10 ^ k) + n % 10 ^ k = n := Nat.div_add_mod n (10 ^ k)
      have hval : (acc * 10 + n / 10 ^ k) * 10 ^ k + n % 10 ^ k = acc * 10 ^ (k + 1) + n := by
        calc (acc * 10 + n / 10 ^ k) * 10 ^ k + n % 10 ^ k
            = acc * (10 * 10 ^ k) + (10 ^ k * (n / 10 ^ k) + n % 10 ^ k) := by ring
          _ = acc * (10 * 10 ^ k) + n := by rw [hdm]
          _ = acc * 10 ^ (k + 1) + n := by rw [hpow]
      rw [hval]

theorem readDigits_pad {k n : Nat} {rest : List Char} (hn : n < 10 ^ k) :
    readDigits k (padDigits k n ++ rest) = some (n, rest) := by
  unfold readDigits
  rw [readDigitsAux_pad k n 0 rest hn]
  simp

theorem padDigits_all_digits :
    ∀ (k n : Nat), n < 10 ^ k → ∀ c ∈ padDigits k n, isDig c = true := by
  intro k
  induction k with
  | zero => intro n _ c hc; simp [padDigits] at hc
  | succ k ih =>
      intro n hn c hc
      have h10 : 0 < (10 : Nat) ^ k := Nat.pos_pow_of_pos k (by omega)
      have hpow : (10 : Nat) ^ (k + 1) = 10 * 10 ^ k := by ring
      have hdiv : n / 10 ^ k < 10 := (Nat.div_lt_iff_lt_mul h10).mpr (by omega)
      have hmod : n % 10 ^ k < 10 ^ k := Nat.mod_lt _ h10
      simp only [padDigits, List.mem_cons] at hc
      rcases hc with hc | hc
      · subst hc; exact digitChar_isDig hdiv
      · exact ih _ hmod c hc

theorem padDigits_ne_Z :
    ∀ (k n : Nat), n < 10 ^ k → ∀ c ∈ padDigits k n, c ≠ 'Z' := by
  intro k n hn c hc
  have := padDigits_all_digits k n hn c hc
  intro h
  subst h
  simp [isDig] at this

theorem daysInMonth_le (y m : Nat) : daysInMonth y m ≤ 31 := by
  unfold daysInMonth
  split
  · split <;> omega
  · split <;> omega

theorem readDigits_pad_nil {k n : Nat} (hn : n < 10 ^ k) :
    readDigits k (padDigits k n) = some (n, []) := by
  have h := @readDigits_pad k n [] hn
  rwa [List.append_nil] at h

theorem parseDate_pad {y mo d : Nat} (tail : List Char)
    (hy : y < 10 ^ 4) (hmo : mo < 10 ^ 2) (hd : d < 10 ^ 2) :
    parseDate (padDigits 4 y ++
        ('-' :: (padDigits 2 mo ++ ('-' :: (padDigits 2 d ++ tail)))))
      = some (y, mo, d, tail) := by
  unfold parseDate
  rw [readDigits_pad hy]
  simp only [Option.bind_eq_bind, Option.some_bind]
  rw [readDigits_pad hmo]
  simp only [Option.some_bind]
  rw [readDigits_pad hd]
  simp

theorem parseTZ_tzL_none : parseTZ (tzL none) = some none := rfl

theorem parseTZ_tzL_some {o : Int} (ho : o.natAbs < 1440) :
    parseTZ (tzL (some o)) = some (some o) := by
  have hdi : o.natAbs / 60 < 10 ^ 2 := by omega
  have hmo : o.natAbs % 60 < 10 ^ 2 := by omega
  have hshape : tzL (some o)
      = (if o < 0 then '-' else '+') ::
          (padDigits 2 (o.natAbs / 60) ++ (':' :: padDigits 2 (o.natAbs % 60))) := by
    simp [tzL]
  rw [hshape]
  have hsum : o.natAbs / 60 * 60 + o.natAbs % 60 = o.natAbs := by omega
  by_cases hneg : o < 0
  · rw [if_pos hneg]
    have hv : -((↑(o.natAbs / 60) : Int) * 60 + ↑(o.natAbs % 60)) = o := by omega
    simp only [parseTZ, readDigits_pad hdi, readDigits_pad_nil hmo]
    simp [hsum, ho, hv]
    simp only [Int.abs_eq_natAbs]
    omega
  · rw [if_neg hneg]
    have hv : ((↑(o.natAbs / 60) : Int) * 60 + ↑(o.natAbs % 60)) = o := by omega
    simp only [parseTZ, readDigits_pad hdi, readDigits_pad_nil hmo]
    simp [hsum, ho, hv]
    simp only [Int.abs_eq_natAbs]
    omega

theorem isDig_dash : isDig '-' = false := by decide

theorem isDig_plus : isDig '+' = false := by decide

theorem digitStarts_tzL (off : Option Int) : digitStarts (tzL off) = false := by
  rcases off with _ | o
  · rfl
  · by_cases hneg : o < 0
    · simp [tzL, if_pos hneg, digitStarts, isDig_dash]
    · simp [tzL, if_neg hneg, digitStarts, isDig_plus]

/-- Parsing the printed form of a valid `DateTime` recovers it exactly:
the character-list core of the codec's timestamp round trip. -/
theorem fromisoformatL_isoformatL {d : DateTime} (h : d.Valid) :
    fromisoformatL (isoformatL d) = some d := by
  obtain ⟨y, mo, dy, hr, mi, sec, us, off⟩ := d
  have h0 : validDT y mo dy hr mi sec us off = true := h
  have hB := h
  simp only [DateTime.Valid, validDT, Bool.and_eq_true, decide_eq_true_eq] at hB
  obtain ⟨⟨⟨⟨⟨⟨⟨⟨⟨⟨hy1, hy2⟩, hm1⟩, hm2⟩, hd1⟩, hd2⟩, hh24⟩, hmi60⟩, hs60⟩, hus6⟩, hoff⟩ := hB
  have e4 : (10 : Nat) ^ 4 = 10000 := by norm_num
  have e2 : (10 : Nat) ^ 2 = 100 := by norm_num
  have e6 : (10 : Nat) ^ 6 = 1000000 := by norm_num
  have hy' : y < 10 ^ 4 := by omega
  have hmo' : mo < 10 ^ 2 := by omega
  have hdim := daysInMonth_le y mo
  have hday' : dy < 10 ^ 2 := by omega
  have hh' : hr < 10 ^ 2 := by omega
  have hmi' : mi < 10 ^ 2 := by omega
  have hs' : sec < 10 ^ 2 := by omega
  have hus' : us < 10 ^ 6 := by omega
  have hshape : isoformatL ⟨y, mo, dy, hr, mi, sec, us, off⟩
      = padDigits 4 y ++ ('-' :: (padDigits 2 mo ++ ('-' :: (padDigits 2 dy ++
          ('T' :: (padDigits 2 hr ++ (':' :: (padDigits 2 mi ++ (':' :: (padDigits 2 sec ++
            (fracL us ++ tzL off))))))))))) := by
    simp [isoformatL, List.append_assoc]
  unfold fromisoformatL
  rw [hshape, parseDate_pad _ hy' hmo' hday']
  simp only [Option.bind_eq_bind, Option.some_bind]
  unfold parseTimePart
  rw [readDigits_pad hh']
  simp only [Option.bind_eq_bind, Option.some_bind]
  rw [readDigits_pad hmi']
  simp only [Option.some_bind]
  rw [readDigits_pad hs']
  simp only [Option.some_bind]
  by_cases hus0 : us = 0
  · subst hus0
    have hfrac : fracL 0 = [] := rfl
    rw [hfrac, List.nil_append]
    rcases off with _ | o
    · have htz : tzL (none : Option Int) = [] := rfl
      rw [htz]
      simp [parseTZ, h0]
    · have hoabs : o.natAbs < 1440 := by simpa using hoff
      by_cases hneg : o < 0
      · have hsign : tzL (some o)
            = '-' :: (padDigits 2 (o.natAbs / 60) ++ (':' :: padDigits 2 (o.natAbs % 60))) := by
          simp [tzL, if_pos hneg]
        rw [hsign]
        simp only [if_neg (show ¬('-' : Char) = '.' by decide)]
        rw [← hsign, parseTZ_tzL_some hoabs]
        simp [h0]
      · have hsign : tzL (some o)
            = '+' :: (padDigits 2 (o.natAbs / 60) ++ (':' :: padDigits 2 (o.natAbs % 60))) := by
          simp [tzL, if_neg hneg]
        rw [hsign]
        simp only [if_neg (show ¬('+' : Char) = '.' by decide)]
        rw [← hsign, parseTZ_tzL_some hoabs]
        simp [h0]
  · have hfrac : fracL us = '.' :: padDigits 6 us := by simp [fracL, hus0]
    rw [hfrac, List.cons_append]
    rcases off with _ | o
    · have htz : tzL (none : Option Int) = [] := rfl
      rw [htz, List.append_nil]
      simp only [if_pos (show ('.' : Char) = '.' from rfl)]
      simp [parseFrac, readDigits_pad_nil hus', digitStarts, parseTZ, h0]
    · have hoabs : o.natAbs < 1440 := by simpa using hoff
      simp only [if_pos (show ('.' : Char) = '.' from rfl)]
      simp only [parseFrac, readDigits_pad hus', digitStarts_tzL, Bool.false_eq_true,
        if_false, Option.some_bind]
      rw [parseTZ_tzL_some hoabs]
      simp [h0]

/-- String-level round trip, including the decoder's `Z`-replacement step:
`fromisoformat (isoformat d |>.replace Z +00:00) = some d` for valid `d`. -/
theorem replaceZ_append (l1 l2 : List Char) :
    replaceZ (l1 ++ l2) = replaceZ l1 ++ replaceZ l2 := by
  induction l1 with
  | nil => simp [replaceZ]
  | cons c tl ih =>
      by_cases hc : c = 'Z'
      · simp [replaceZ, hc, ih]
      · simp [replaceZ, hc, ih]

theorem replaceZ_of_no_Z {l : List Char} (h : ∀ c ∈ l, c ≠ 'Z') : replaceZ l = l := by
  induction l with
  | nil => rfl
  | cons c tl ih =>
      have hc : c ≠ 'Z' := h c (List.mem_cons_self c tl)
      simp only [replaceZ, if_neg hc]
      rw [ih (fun x hx => h x (List.mem_cons_of_mem c hx))]

theorem noZ_append {l1 l2 : List Char} (h1 : ∀ c ∈ l1, c ≠ 'Z') (h2 : ∀ c ∈ l2, c ≠ 'Z') :
    ∀ c ∈ l1 ++ l2, c ≠ 'Z' := by
  intro c hc
  rcases List.mem_append.mp hc with h | h
  · exact h1 c h
  · exact h2 c h

theorem noZ_single {a : Char} (h : a ≠ 'Z') : ∀ c ∈ [a], c ≠ 'Z' := by
  intro c hc
  simp only [List.mem_singleton] at hc
  subst hc
  exact h

theorem fracL_no_Z {us : Nat} (hus : us < 10 ^ 6) : ∀ c ∈ fracL us, c ≠ 'Z' := by
  by_cases h0 : us = 0
  · simp [fracL, h0]
  · intro c hc
    simp only [fracL, if_neg h0, List.mem_cons] at hc
    rcases hc with hc | hc
    · subst hc; decide
    · exact padDigits_ne_Z 6 us hus c hc

theorem tzL_no_Z {off : Option Int} (h : ∀ o, off = some o → o.natAbs < 1440) :
    ∀ c ∈ tzL off, c ≠ 'Z' := by
  rcases off with _ | o
  · simp [tzL]
  · have ho := h o rfl
    have e2 : (10 : Nat) ^ 2 = 100 := by norm_num
    have hshape : tzL (some o)
        = [if o < 0 then '-' else '+'] ++ padDigits 2 (o.natAbs / 60) ++ [':'] ++
            padDigits 2 (o.natAbs % 60) := rfl
    rw [hshape]
    refine noZ_append (noZ_append (noZ_append (noZ_single ?_)
      (padDigits_ne_Z 2 _ (by omega))) (noZ_single (by decide)))
      (padDigits_ne_Z 2 _ (by omega))
    by_cases hneg : o < 0
    · rw [if_pos hneg]; decide
    · rw [if_neg hneg]; decide

theorem isoformatL_no_Z {d : DateTime} (h : d.Valid) :
    ∀ c ∈ isoformatL d, c ≠ 'Z' := by
  obtain ⟨y, mo, dy, hr, mi, sec, us, off⟩ := d
  have hB := h
  simp only [DateTime.Valid, validDT, Bool.and_eq_true, decide_eq_true_eq] at hB
  obtain ⟨⟨⟨⟨⟨⟨⟨⟨⟨⟨hy1, hy2⟩, hm1⟩, hm2⟩, hd1⟩, hd2⟩, hh24⟩, hmi60⟩, hs60⟩, hus6⟩, hoff⟩ := hB
  have e4 : (10 : Nat) ^ 4 = 10000 := by norm_num
  have e2 : (10 : Nat) ^ 2 = 100 := by norm_num
  have e6 : (10 : Nat) ^ 6 = 1000000 := by norm_num
  have hdim := daysInMonth_le y mo
  simp only [isoformatL]
  refine noZ_append (noZ_append (noZ_append (noZ_append (noZ_append (noZ_append
    (noZ_append (noZ_append (noZ_append (noZ_append (noZ_append (noZ_append
      (padDigits_ne_Z 4 y (by omega)) (noZ_single (by decide)))
      (padDigits_ne_Z 2 mo (by omega))) (noZ_single (by decide)))
      (padDigits_ne_Z 2 dy (by omega))) (noZ_single (by decide)))
      (padDigits_ne_Z 2 hr (by omega))) (noZ_single (by decide)))
      (padDigits_ne_Z 2 mi (by omega))) (noZ_single (by decide)))
      (padDigits_ne_Z 2 sec (by omega))) (fracL_no_Z (by omega)))
    (tzL_no_Z ?_)
  intro o ho
  subst ho
  simpa using hoff

theorem fromisoformat_replaceZ_isoformat {d : DateTime} (h : d.Valid) :
    fromisoformat (replaceZstr (isoformat d)) = some d := by
  show fromisoformatL (replaceZ (isoformatL d)) = some d
  rw [replaceZ_of_no_Z (isoformatL_no_Z h)]
  exact fromisoformatL_isoformatL h

theorem lookupA_isSome_iff {α : Type} (l : List (String × α)) (k : String) :
    (lookupA l k).isSome = true ↔ k ∈ l.map Prod.fst := by
  induction l with
  | nil => simp [lookupA]
  | cons p rest ih =>
      by_cases h : p.1 = k
      · simp [lookupA, h]
      · simp only [lookupA, if_neg h, List.map_cons, List.mem_cons, ih]
        constructor
        · intro hm; exact Or.inr hm
        · intro hm
          rcases hm with hm | hm
          · exact absurd hm.symm h
          · exact hm

theorem lookupA_eq_none_iff {α : Type} (l : List (String × α)) (k : String) :
    lookupA l k = none ↔ k ∉ l.map Prod.fst := by
  rw [← lookupA_isSome_iff]
  rcases h : lookupA l k with _ | v <;> simp [h]

theorem lookupA_mem_self {α : Type} {l : List (String × α)}
    (hnd : (l.map Prod.fst).Nodup) {p : String × α} (hp : p ∈ l) :
    lookupA l p.1 = some p.2 := by
  induction l with
  | nil => cases hp
  | cons q rest ih =>
      simp only [List.map_cons, List.nodup_cons] at hnd
      obtain ⟨hq1, hnd'⟩ := hnd
      rcases List.mem_cons.mp hp with hp | hp
      · subst hp
        simp [lookupA]
      · have hne : q.1 ≠ p.1 := by
          intro he
          exact hq1 (he ▸ List.mem_map_of_mem Prod.fst hp)
        simp only [lookupA, if_neg hne]
        exact ih hnd' hp

theorem flatMap_eq_nil_of {α β : Type} (l : List α) (f : α → List β)
    (h : ∀ p ∈ l, f p = []) : l.flatMap f = [] := by
  induction l with
  | nil => rfl
  | cons p rest ih =>
      rw [List.flatMap_cons, h p (List.mem_cons_self p rest),
        ih (fun q hq => h q (List.mem_cons_of_mem p hq))]
      rfl

theorem flatMap_if_eq_map_filter {α : Type} (l : List (String × α))
    (cond : String → Bool) (c : ChangeType) :
    (l.flatMap fun p => if cond p.1 then [(p.1, c)] else [])
      = ((l.map Prod.fst).filter cond).map (fun t => (t, c)) := by
  induction l with
  | nil => rfl
  | cons p rest ih =>
      by_cases h : cond p.1
      · simp [List.flatMap_cons, h, ih, List.filter_cons]
      · simp [List.flatMap_cons, h, ih, List.filter_cons]

theorem fileTypeChanges_self (t ft : String) (w : WorksheetInfo) (nT dT : ChangeType) :
    fileTypeChanges t ft w w nT dT = [] := by
  by_cases h : w.has_file_type ft <;> simp [fileTypeChanges, h]

theorem compareEntry_title (old : LanguageInfo) (p : String × WorksheetInfo)
    (e : String × ChangeType) (he : e ∈ compareEntry old p) :
    e.1 = p.1 ∧ e.2 ≠ ChangeType.DELETED_WORKSHEET := by
  unfold compareEntry at he
  rcases hl : lookupA old.worksheets p.1 with _ | oldInfo <;> rw [hl] at he
  · simp only [List.mem_singleton] at he
    subst he
    exact ⟨rfl, by simp⟩
  · rcases List.mem_append.mp he with hm | hm <;>
      · unfold fileTypeChanges at hm
        split at hm <;> split at hm <;> simp at hm <;>
          (subst hm; exact ⟨rfl, by simp⟩)

theorem count_flatMap_keyed {α : Type} (f : String × α → List (String × ChangeType))
    (hf : ∀ p e, e ∈ f p → e.1 = p.1)
    (l : List (String × α)) (hnd : (l.map Prod.fst).Nodup)
    (t : String) (c : ChangeType) :
    (l.flatMap f).count (t, c)
      = (match lookupA l t with
         | some v => (f (t, v)).count (t, c)
         | none => 0) := by
  induction l with
  | nil => simp [lookupA]
  | cons p rest ih =>
      simp only [List.map_cons, List.nodup_cons] at hnd
      obtain ⟨hp1, hnd'⟩ := hnd
      rw [List.flatMap_cons, List.count_append]
      by_cases hk : p.1 = t
      · subst hk
        have hrest : (rest.flatMap f).count (p.1, c) = 0 := by
          rw [List.count_eq_zero]
          intro hmem
          obtain ⟨q, hq, he⟩ := List.mem_flatMap.mp hmem
          have ht := hf q _ he
          exact hp1 (ht ▸ List.mem_map_of_mem Prod.fst hq)
        rw [hrest]
        simp [lookupA]
      · have hp0 : (f p).count (t, c) = 0 := by
          rw [List.count_eq_zero]
          intro hmem
          exact hk (hf p _ hmem).symm
        rw [hp0, ih hnd']
        simp [lookupA, hk]

/-- C1: `self.compare(older)` emits exactly these events: one NEW_WORKSHEET
per worksheet in `self` but not `older`; for each worksheet in both and
each of the file types pdf and odt, one NEW_/DELETED_ event exactly when
the type appears/disappears; one DELETED_WORKSHEET per worksheet in `older`
but not `self`; and nothing else — stated as the exact multiplicity of
every possible event `(t, c)` in the returned ChangeLog. -/
theorem C1_compare_events (self old : LanguageInfo)
    (hs : (self.worksheets.map Prod.fst).Nodup)
    (ho : (old.worksheets.map Prod.fst).Nodup)
    (t : String) :
    ((self.compare (PyVal.languageInfo old)).count (t, ChangeType.NEW_WORKSHEET)
        = if self.has_worksheet t ∧ ¬ old.has_worksheet t then 1 else 0)
    ∧ ((self.compare (PyVal.languageInfo old)).count (t, ChangeType.DELETED_WORKSHEET)
        = if old.has_worksheet t ∧ ¬ self.has_worksheet t then 1 else 0)
    ∧ ((self.compare (PyVal.languageInfo old)).count (t, ChangeType.NEW_PDF)
        = if self.has_worksheet t ∧ old.has_worksheet t ∧
            self.worksheet_has_type t "pdf" ∧ ¬ old.worksheet_has_type t "pdf"
          then 1 else 0)
    ∧ ((self.compare (PyVal.languageInfo old)).count (t, ChangeType.DELETED_PDF)
        = if self.has_worksheet t ∧ old.has_worksheet t ∧
            ¬ self.worksheet_has_type t "pdf" ∧ old.worksheet_has_type t "pdf"
          then 1 else 0)
    ∧ ((self.compare (PyVal.languageInfo old)).count (t, ChangeType.NEW_ODT)
        = if self.has_worksheet t ∧ old.has_worksheet t ∧
            self.worksheet_has_type t "odt" ∧ ¬ old.worksheet_has_type t "odt"
          then 1 else 0)
    ∧ ((self.compare (PyVal.languageInfo old)).count (t, ChangeType.DELETED_ODT)
        = if self.has_worksheet t ∧ old.has_worksheet t ∧
            ¬ self.worksheet_has_type t "odt" ∧ old.worksheet_has_type t "odt"
          then 1 else 0)
    ∧ ((self.compare (PyVal.languageInfo old)).count (t, ChangeType.UPDATED_PDF) = 0)
    ∧ ((self.compare (PyVal.languageInfo old)).count (t, ChangeType.UPDATED_ODT) = 0)
    ∧ ((self.compare (PyVal.languageInfo old)).count (t, ChangeType.UPDATED_WORKSHEET) = 0) := by
  have hf2 : ∀ (p : String × WorksheetInfo) (e : String × ChangeType),
      e ∈ (if (lookupA self.worksheets p.1).isNone
           then [(p.1, ChangeType.DELETED_WORKSHEET)] else ([] : List (String × ChangeType)))
      → e.1 = p.1 := by
    intro p e he
    split at he
    · simp only [List.mem_singleton] at he
      subst he
      rfl
    · cases he
  have hc : self.compare (PyVal.languageInfo old)
      = (self.worksheets.flatMap (compareEntry old)) ++
        (old.worksheets.flatMap fun p =>
          if (lookupA self.worksheets p.1).isNone
          then [(p.1, ChangeType.DELETED_WORKSHEET)] else []) := rfl
  refine ⟨?_, ?_, ?_, ?_, ?_, ?_, ?_, ?_, ?_⟩ <;>
  · rw [hc, List.count_append,
      count_flatMap_keyed (compareEntry old)
        (fun p e he => (compareEntry_title old p e he).1) self.worksheets hs,
      count_flatMap_keyed _ hf2 old.worksheets ho]
    rcases hS : lookupA self.worksheets t with _ | info <;>
    rcases hO : lookupA old.worksheets t with _ | oldInfo <;>
    first
      | (simp [hS, hO, LanguageInfo.has_worksheet, LanguageInfo.worksheet_has_type,
          compareEntry, List.count_cons]; done)
      | (by_cases h1 : info.has_file_type "pdf" <;>
         by_cases h2 : oldInfo.has_file_type "pdf" <;>
         by_cases h3 : info.has_file_type "odt" <;>
         by_cases h4 : oldInfo.has_file_type "odt" <;>
           simp [hS, hO, LanguageInfo.has_worksheet, LanguageInfo.worksheet_has_type,
             compareEntry, fileTypeChanges, h1, h2, h3, h4,
             List.count_append, List.count_cons])

/-- C4: `compare` called with any non-LanguageInfo value returns an empty
ChangeLog and does not raise (the function is total). -/
theorem C4_compare_non_languageinfo (self : LanguageInfo) (old : PyVal)
    (h : ∀ l : LanguageInfo, old ≠ PyVal.languageInfo l) :
    self.compare old = [] := by
  cases old <;> first | rfl | exact absurd rfl (h _)

theorem C4_witness :
    LanguageInfo.compare ⟨"en", []⟩ (PyVal.str "x") = [] :=
  C4_compare_non_languageinfo ⟨"en", []⟩ (PyVal.str "x")
    (fun _ h => PyVal.noConfusion h)

/-- C9: comparing a LanguageInfo against itself emits no events. -/
theorem C9_compare_self_empty (x : LanguageInfo)
    (h : (x.worksheets.map Prod.fst).Nodup) :
    x.compare (PyVal.languageInfo x) = [] := by
  have hc : x.compare (PyVal.languageInfo x)
      = (x.worksheets.flatMap (compareEntry x)) ++
        (x.worksheets.flatMap fun p =>
          if (lookupA x.worksheets p.1).isNone
          then [(p.1, ChangeType.DELETED_WORKSHEET)] else []) := rfl
  rw [hc]
  rw [flatMap_eq_nil_of _ _ (fun p hp => by
    have hl := lookupA_mem_self h hp
    simp [compareEntry, hl, fileTypeChanges_self])]
  rw [flatMap_eq_nil_of _ _ (fun p hp => by
    have hl := lookupA_mem_self h hp
    simp [hl])]
  rfl

theorem C9_witness :
    LanguageInfo.compare
      ⟨"de", [("Forgiveness", ⟨"Forgiveness", "de", "Vergebung", ⟨1, 0, 1⟩,
        [("pdf", ⟨"pdf", "u", epochDT⟩)]⟩)]⟩
      (PyVal.languageInfo
        ⟨"de", [("Forgiveness", ⟨"Forgiveness", "de", "Vergebung", ⟨1, 0, 1⟩,
          [("pdf", ⟨"pdf", "u", epochDT⟩)]⟩)]⟩) = [] :=
  C9_compare_self_empty _ (by decide)

/-- C6: the ChangeLog lists the per-worksheet additions/updates in the
iteration order of `self.worksheets` (each entry contributing only events
carrying its own name, none of them DELETED_WORKSHEET), followed by the
DELETED_WORKSHEET events in the iteration order of `older.worksheets`. -/
theorem C6_compare_order (self old : LanguageInfo) :
    (self.compare (PyVal.languageInfo old)
      = (self.worksheets.flatMap (compareEntry old)) ++
        (((old.worksheets.map Prod.fst).filter
            (fun t => (lookupA self.worksheets t).isNone)).map
          (fun t => (t, ChangeType.DELETED_WORKSHEET))))
    ∧ (∀ p e, e ∈ compareEntry old p
        → e.1 = p.1 ∧ e.2 ≠ ChangeType.DELETED_WORKSHEET) := by
  constructor
  · have hc : self.compare (PyVal.languageInfo old)
        = (self.worksheets.flatMap (compareEntry old)) ++
          (old.worksheets.flatMap fun p =>
            if (lookupA self.worksheets p.1).isNone
            then [(p.1, ChangeType.DELETED_WORKSHEET)] else []) := rfl
    rw [hc, flatMap_if_eq_map_filter old.worksheets
      (fun t => (lookupA self.worksheets t).isNone) ChangeType.DELETED_WORKSHEET]
  · exact compareEntry_title old

theorem C6_witness :
    LanguageInfo.compare
        ⟨"de", [("New", ⟨"New", "de", "t1", ⟨1, 0, 1⟩, []⟩)]⟩
        (PyVal.languageInfo ⟨"de", [("Gone", ⟨"Gone", "de", "t2", ⟨1, 0, 1⟩, []⟩)]⟩)
      = [("New", ChangeType.NEW_WORKSHEET), ("Gone", ChangeType.DELETED_WORKSHEET)] := by
  have h := (C6_compare_order
    ⟨"de", [("New", ⟨"New", "de", "t1", ⟨1, 0, 1⟩, []⟩)]⟩
    ⟨"de", [("Gone", ⟨"Gone", "de", "t2", ⟨1, 0, 1⟩, []⟩)]⟩).1
  rw [h]
  decide

theorem filter_lookup_missing :
    ∀ ws : List (String × WorksheetInfo), (ws.map Prod.fst).Nodup →
      ((ws.map Prod.fst).filter fun w =>
          match lookupA ws w with
          | some info => ! info.has_file_type "pdf"
          | none => false)
        = (ws.filter (fun p => ! p.2.has_file_type "pdf")).map Prod.fst := by
  intro ws
  induction ws with
  | nil => intro _; rfl
  | cons p rest ih =>
      intro hnd
      simp only [List.map_cons, List.nodup_cons] at hnd
      obtain ⟨hp1, hnd2⟩ := hnd
      have hhead : lookupA (p :: rest) p.1 = some p.2 := by simp [lookupA]
      have htail : ((rest.map Prod.fst).filter fun w =>
            match lookupA (p :: rest) w with
            | some info => ! info.has_file_type "pdf"
            | none => false)
          = ((rest.map Prod.fst).filter fun w =>
              match lookupA rest w with
              | some info => ! info.has_file_type "pdf"
              | none => false) := by
        apply List.filter_congr
        intro w hw
        have hne : p.1 ≠ w := fun he => hp1 (he ▸ hw)
        simp [lookupA, hne]
      by_cases hpdf : p.2.has_file_type "pdf" <;>
        simp [List.filter_cons, hhead, hpdf, htail, ih hnd2]

/-- C8: `list_worksheets_with_missing_pdf` returns exactly the names of the
worksheets lacking a pdf file entry, in the iteration order of the
worksheets mapping. -/
theorem C8_list_missing_pdf (li : LanguageInfo)
    (h : (li.worksheets.map Prod.fst).Nodup) :
    li.list_worksheets_with_missing_pdf
      = (li.worksheets.filter (fun p => ! p.2.has_file_type "pdf")).map Prod.fst :=
  filter_lookup_missing li.worksheets h

theorem C8_witness :
    LanguageInfo.list_worksheets_with_missing_pdf
        ⟨"en", [("X", ⟨"X", "en", "tx", ⟨1, 0, 1⟩, [("pdf", ⟨"pdf", "u", epochDT⟩)]⟩),
                ("Y", ⟨"Y", "en", "ty", ⟨1, 0, 1⟩, []⟩)]⟩
      = ["Y"] := by
  have h := C8_list_missing_pdf
    ⟨"en", [("X", ⟨"X", "en", "tx", ⟨1, 0, 1⟩, [("pdf", ⟨"pdf", "u", epochDT⟩)]⟩),
            ("Y", ⟨"Y", "en", "ty", ⟨1, 0, 1⟩, []⟩)]⟩ (by decide)
  rw [h]
  decide

theorem updateA_updateA {α : Type} (k : String) (v1 v2 : α) (l : List (String × α)) :
    updateA k v2 (updateA k v1 l) = updateA k v2 l := by
  induction l with
  | nil => simp [updateA]
  | cons p rest ih =>
      by_cases h : p.1 = k
      · simp [updateA, h]
      · simp [updateA, h, ih]

theorem length_updateA_eq {α : Type} (k : String) (v1 v2 : α) (l : List (String × α)) :
    (updateA k v1 l).length = (updateA k v2 l).length := by
  induction l with
  | nil => rfl
  | cons p rest ih =>
      by_cases h : p.1 = k <;> simp [updateA, h, ih]

theorem countP_updateA {α : Type} (k : String) (v : α) (l : List (String × α))
    (hnd : (l.map Prod.fst).Nodup) :
    (updateA k v l).countP (fun p => p.1 == k) = 1 := by
  induction l with
  | nil => simp [updateA]
  | cons p rest ih =>
      simp only [List.map_cons, List.nodup_cons] at hnd
      obtain ⟨hp1, hnd2⟩ := hnd
      by_cases h : p.1 = k
      · have hz : rest.countP (fun p => p.1 == k) = 0 := by
          rw [List.countP_eq_zero]
          intro q hq
          simp only [beq_iff_eq]
          intro he
          exact hp1 (h ▸ he ▸ List.mem_map_of_mem Prod.fst hq)
        simp [updateA, h, List.countP_cons, hz]
      · simp [updateA, h, List.countP_cons, ih hnd2]

/-- C7: calling `add_file_info` twice with FileInfo values of the same
file_type overwrites rather than duplicates — the resulting dict is the one
a single (second) call would produce, the sizes after one and two calls
agree, and exactly one entry for that type remains. -/
theorem C7_add_file_info_overwrites (w : WorksheetInfo) (f1 f2 : FileInfo)
    (hft : f1.file_type = f2.file_type)
    (hnd : (w._files.map Prod.fst).Nodup) :
    ∃ w1 w2 : WorksheetInfo,
      w.add_file_info ⟨some f1, none, none⟩ = Except.ok w1 ∧
      w1.add_file_info ⟨some f2, none, none⟩ = Except.ok w2 ∧
      w2._files = updateA f2.file_type f2 w._files ∧
      w2._files.length = w1._files.length ∧
      w2._files.countP (fun p => p.1 == f2.file_type) = 1 := by
  refine ⟨_, _, rfl, rfl, ?_, ?_, ?_⟩
  · show updateA f2.file_type f2 (updateA f1.file_type f1 w._files)
        = updateA f2.file_type f2 w._files
    rw [hft, updateA_updateA]
  · show (updateA f2.file_type f2 (updateA f1.file_type f1 w._files)).length
        = (updateA f1.file_type f1 w._files).length
    rw [hft, updateA_updateA, length_updateA_eq f2.file_type f2 f1]
  · show (updateA f2.file_type f2 (updateA f1.file_type f1 w._files)).countP
        (fun p => p.1 == f2.file_type) = 1
    rw [hft, updateA_updateA]
    exact countP_updateA f2.file_type f2 w._files hnd

theorem C7_witness :
    ∃ w1 w2 : WorksheetInfo,
      WorksheetInfo.add_file_info ⟨"Page", "en", "t", ⟨1, 0, 1⟩, []⟩
          ⟨some ⟨"pdf", "u1", epochDT⟩, none, none⟩ = Except.ok w1 ∧
      w1.add_file_info ⟨some ⟨"pdf", "u2", epochDT⟩, none, none⟩ = Except.ok w2 ∧
      w2._files = updateA (FileInfo.mk "pdf" "u2" epochDT).file_type
        ⟨"pdf", "u2", epochDT⟩ [] ∧
      w2._files.length = w1._files.length ∧
      w2._files.countP (fun p => p.1 == (FileInfo.mk "pdf" "u2" epochDT).file_type) = 1 :=
  C7_add_file_info_overwrites ⟨"Page", "en", "t", ⟨1, 0, 1⟩, []⟩
    ⟨"pdf", "u1", epochDT⟩ ⟨"pdf", "u2", epochDT⟩ rfl (by decide)

theorem keyed_updateA {α : Type} {P : String × α → Prop} {l : List (String × α)}
    {k : String} {v : α} (hl : ∀ p ∈ l, P p) (hv : P (k, v)) :
    ∀ p ∈ updateA k v l, P p := by
  induction l with
  | nil =>
      intro p hp
      simp only [updateA, List.mem_singleton] at hp
      subst hp
      exact hv
  | cons q rest ih =>
      intro p hp
      by_cases h : q.1 = k
      · simp only [updateA, if_pos h, List.mem_cons] at hp
        rcases hp with hp | hp
        · subst hp; exact hv
        · exact hl p (List.mem_cons_of_mem q hp)
      · simp only [updateA, if_neg h, List.mem_cons] at hp
        rcases hp with hp | hp
        · subst hp; exact hl _ (List.mem_cons_self _ _)
        · exact ih (fun r hr => hl r (List.mem_cons_of_mem q hr)) p hp

theorem mkFileInfo_file_type {ft u : String} {ts : PyVal} {fi : FileInfo}
    (h : mkFileInfo ft u ts = .ok fi) : fi.file_type = ft := by
  cases ts <;> simp [mkFileInfo] at h <;> rw [← h]

theorem stepAdd_keyed {w : WorksheetInfo} (hw : FilesKeyed w) (a : AddArgs) :
    FilesKeyed (stepAdd w a) := by
  unfold stepAdd WorksheetInfo.add_file_info
  rcases a with ⟨fi?, ft?, pwb?⟩
  rcases fi? with _ | fi
  · rcases ft? with _ | ft
    · exact hw
    · rcases pwb? with _ | pwb
      · exact hw
      · rcases hmk : mkFileInfo ft (unquote pwb.1) pwb.2 with e | fi2
        · simp only [hmk, Except.map_error]
          exact hw
        · simp only [hmk, Except.map_ok]
          exact keyed_updateA hw (mkFileInfo_file_type hmk).symm
  · exact keyed_updateA hw rfl

theorem foldl_stepAdd_keyed :
    ∀ (calls : List AddArgs) (w : WorksheetInfo), FilesKeyed w →
      FilesKeyed (calls.foldl stepAdd w) := by
  intro calls
  induction calls with
  | nil => intro w hw; exact hw
  | cons a rest ih =>
      intro w hw
      exact ih (stepAdd w a) (stepAdd_keyed hw a)

theorem lookupA_keyed {l : List (String × FileInfo)} {k : String} {fi : FileInfo}
    (hl : ∀ p ∈ l, p.1 = p.2.file_type) (h : lookupA l k = some fi) :
    fi.file_type = k := by
  induction l with
  | nil => cases h
  | cons p rest ih =>
      by_cases hk : p.1 = k
      · simp only [lookupA, if_pos hk] at h
        have := hl p (List.mem_cons_self p rest)
        rw [← hk, this, Option.some_inj.mp h]
      · simp only [lookupA, if_neg hk] at h
        exact ih (fun q hq => hl q (List.mem_cons_of_mem p hq)) h

/-- C10: starting from a fresh WorksheetInfo, after any sequence of
`add_file_info` calls (either calling mode, successful or not), every key
`k` for which `get_file_type_info k` returns a FileInfo maps to a FileInfo
whose `file_type` equals `k`. -/
theorem C10_files_keyed_by_type (page lc title : String) (pr : TranslationProgress)
    (calls : List AddArgs) (k : String) (fi : FileInfo)
    (h : (calls.foldl stepAdd ⟨page, lc, title, pr, []⟩).get_file_type_info k
      = some fi) :
    fi.file_type = k := by
  have hkeyed : FilesKeyed (calls.foldl stepAdd ⟨page, lc, title, pr, []⟩) :=
    foldl_stepAdd_keyed calls _ (by intro p hp; cases hp)
  unfold WorksheetInfo.get_file_type_info at h
  split at h
  · exact lookupA_keyed hkeyed h
  · cases h

theorem C10_witness :
    FileInfo.file_type ⟨"pdf", "u", epochDT⟩ = "pdf" :=
  C10_files_keyed_by_type "P" "en" "T" ⟨1, 0, 1⟩
    [⟨some ⟨"pdf", "u", epochDT⟩, none, none⟩] "pdf" ⟨"pdf", "u", epochDT⟩ (by decide)

/-- C3 fails as stated for non-datetime, non-string timestamp values: an
integer timestamp reaches `timestamp.replace` and raises `AttributeError`,
which the `except (ValueError, TypeError)` clause does not catch. -/
theorem C3_counterexample :
    mkFileInfo "pdf" "url" (PyVal.int 0) = Except.error PyError.attributeError := rfl

theorem replaceZstr_append_Z (s : String) :
    replaceZstr (s ++ "Z") = replaceZstr (s ++ "+00:00") := by
  unfold replaceZstr
  rw [String.data_append, String.data_append, replaceZ_append, replaceZ_append]
  rfl

/-- C3 (amended to the `datetime`/`str` inputs of the declared
`Union[datetime, str]` type): construction never raises — a datetime is
stored as-is; a string is parsed after replacing `Z` with `+00:00` (so a
trailing `Z` acts as an alias for `+00:00`); any parse failure yields the
fixed 1970-01-01 fallback instead of an exception; and a validly printed
timestamp is recovered exactly. -/
theorem C3_construction_total (ft url : String) :
    (∀ d : DateTime, mkFileInfo ft url (PyVal.dt d) = .ok ⟨ft, url, d⟩)
    ∧ (∀ s : String, mkFileInfo ft url (.str s)
        = .ok ⟨ft, url, (fromisoformat (replaceZstr s)).getD epochDT⟩)
    ∧ (∀ s : String, mkFileInfo ft url (.str (s ++ "Z"))
        = mkFileInfo ft url (.str (s ++ "+00:00")))
    ∧ (∀ s : String, fromisoformat (replaceZstr s) = none
        → mkFileInfo ft url (.str s) = .ok ⟨ft, url, epochDT⟩)
    ∧ (∀ d : DateTime, d.Valid
        → mkFileInfo ft url (.str (isoformat d)) = .ok ⟨ft, url, d⟩) := by
  refine ⟨fun d => rfl, fun s => rfl, ?_, ?_, ?_⟩
  · intro s
    show Except.ok (FileInfo.mk ft url ((fromisoformat (replaceZstr (s ++ "Z"))).getD epochDT))
        = Except.ok (FileInfo.mk ft url ((fromisoformat (replaceZstr (s ++ "+00:00"))).getD epochDT))
    rw [replaceZstr_append_Z]
  · intro s h
    show Except.ok (FileInfo.mk ft url ((fromisoformat (replaceZstr s)).getD epochDT)) = _
    rw [h]
    rfl
  · intro d hv
    show Except.ok (FileInfo.mk ft url
        ((fromisoformat (replaceZstr (isoformat d))).getD epochDT)) = _
    rw [fromisoformat_replaceZ_isoformat hv]
    rfl

theorem C3_witness :
    mkFileInfo "pdf" "u" (PyVal.str "not-a-date")
      = Except.ok ⟨"pdf", "u", epochDT⟩ :=
  (C3_construction_total "pdf" "u").2.2.2.1 "not-a-date" (by decide)

theorem addAllFiles_error :
    ∀ (fs : List PyVal) (w : WorksheetInfo),
      (∃ f ∈ fs, ∀ fi : FileInfo, f ≠ .fileInfo fi) →
      ∃ e, addAllFiles w fs = .error e := by
  intro fs
  induction fs with
  | nil =>
      intro w h
      obtain ⟨f, hf, _⟩ := h
      cases hf
  | cons f rest ih =>
      intro w h
      obtain ⟨g, hg, hne⟩ := h
      rcases List.mem_cons.mp hg with hg1 | hg2
      · subst hg1
        by_cases hfi : ∃ fi : FileInfo, g = PyVal.fileInfo fi
        · obtain ⟨fi, rfl⟩ := hfi
          exact absurd rfl (hne fi)
        · refine ⟨PyError.assertionError, ?_⟩
          cases g <;> first | rfl | exact absurd ⟨_, rfl⟩ hfi
      · by_cases hfi : ∃ fi : FileInfo, f = PyVal.fileInfo fi
        · obtain ⟨fi, rfl⟩ := hfi
          obtain ⟨e, he⟩ := ih
            ⟨w.page, w.language_code, w.title, w.progress,
              updateA fi.file_type fi w._files⟩ ⟨g, hg2, hne⟩
          exact ⟨e, he⟩
        · refine ⟨PyError.assertionError, ?_⟩
          cases f <;> first | rfl | exact absurd ⟨_, rfl⟩ hfi

theorem addAllWorksheets_error :
    ∀ (ws : List PyVal) (li : LanguageInfo),
      (∃ v ∈ ws, ∀ w : WorksheetInfo, v ≠ .worksheetInfo w) →
      ∃ e, addAllWorksheets li ws = .error e := by
  intro ws
  induction ws with
  | nil =>
      intro li h
      obtain ⟨v, hv, _⟩ := h
      cases hv
  | cons v rest ih =>
      intro li h
      obtain ⟨g, hg, hne⟩ := h
      rcases List.mem_cons.mp hg with hg1 | hg2
      · subst hg1
        by_cases hwi : ∃ w : WorksheetInfo, g = PyVal.worksheetInfo w
        · obtain ⟨w, rfl⟩ := hwi
          exact absurd rfl (hne w)
        · refine ⟨PyError.assertionError, ?_⟩
          cases g <;> first | rfl | exact absurd ⟨_, rfl⟩ hwi
      · by_cases hwi : ∃ w : WorksheetInfo, v = PyVal.worksheetInfo w
        · obtain ⟨w, rfl⟩ := hwi
          obtain ⟨e, he⟩ := ih
            ⟨li.language_code, updateA w.page w li.worksheets⟩ ⟨g, hg2, hne⟩
          exact ⟨e, he⟩
        · refine ⟨PyError.assertionError, ?_⟩
          cases v <;> first | rfl | exact absurd ⟨_, rfl⟩ hwi

/-- C5: `json_decode` infers the target entity purely from key presence, in
the fixed priority `file_type`, `translated`, `page`, `worksheets`,
falling through to returning the mapping unchanged; each branch succeeds
exactly under the claimed key/nested-type conditions and otherwise aborts
the decode with an error. -/
theorem C5_json_decode_dispatch (data : List (String × PyVal)) :
    ((lookupA data "file_type").isSome
      → ¬((lookupA data "url").isSome ∧ (lookupA data "timestamp").isSome)
      → ∃ e, json_decode data = .error e)
    ∧ (∀ (ft u : String) (tsv : PyVal),
        lookupA data "file_type" = some (.str ft)
        → lookupA data "url" = some (.str u)
        → lookupA data "timestamp" = some tsv
        → json_decode data = (mkFileInfo ft u tsv).map PyVal.fileInfo)
    ∧ (lookupA data "file_type" = none
        → (lookupA data "translated").isSome
        → json_decode data = .ok (.progress (progressOfDict data)))
    ∧ (lookupA data "file_type" = none
        → lookupA data "translated" = none
        → (lookupA data "page").isSome
        → ¬((lookupA data "language_code").isSome ∧ (lookupA data "title").isSome
            ∧ ∃ pr : TranslationProgress, lookupA data "progress" = some (.progress pr))
        → ∃ e, json_decode data = .error e)
    ∧ (∀ (p lc t : String) (pr : TranslationProgress),
        lookupA data "file_type" = none
        → lookupA data "translated" = none
        → lookupA data "page" = some (.str p)
        → lookupA data "language_code" = some (.str lc)
        → lookupA data "title" = some (.str t)
        → lookupA data "progress" = some (.progress pr)
        → (lookupA data "files" = none
            → json_decode data = .ok (.worksheetInfo ⟨p, lc, t, pr, []⟩))
          ∧ (∀ fs : List PyVal, lookupA data "files" = some (.list fs)
              → json_decode data
                  = (addAllFiles ⟨p, lc, t, pr, []⟩ fs).map PyVal.worksheetInfo)
          ∧ (∀ fs : List PyVal, lookupA data "files" = some (.list fs)
              → (∃ f ∈ fs, ∀ fi : FileInfo, f ≠ .fileInfo fi)
              → ∃ e, json_decode data = .error e))
    ∧ (lookupA data "file_type" = none
        → lookupA data "translated" = none
        → lookupA data "page" = none
        → (lookupA data "worksheets").isSome
        → lookupA data "language_code" = none
        → ∃ e, json_decode data = .error e)
    ∧ (∀ (lc : String) (ws : List PyVal),
        lookupA data "file_type" = none
        → lookupA data "translated" = none
        → lookupA data "page" = none
        → lookupA data "worksheets" = some (.list ws)
        → lookupA data "language_code" = some (.str lc)
        → (json_decode data = (addAllWorksheets ⟨lc, []⟩ ws).map PyVal.languageInfo)
          ∧ ((∃ v ∈ ws, ∀ w : WorksheetInfo, v ≠ .worksheetInfo w)
              → ∃ e, json_decode data = .error e))
    ∧ (lookupA data "file_type" = none
        → lookupA data "translated" = none
        → lookupA data "page" = none
        → lookupA data "worksheets" = none
        → json_decode data = .ok (.dict data)) := by
  refine ⟨?_, ?_, ?_, ?_, ?_, ?_, ?_, ?_⟩
  · intro hft hmiss
    rcases hft' : lookupA data "file_type" with _ | ftv
    · rw [hft'] at hft; cases hft
    · rcases hurl : lookupA data "url" with _ | uv <;>
      rcases hts : lookupA data "timestamp" with _ | tsv <;>
        simp only [json_decode, hft', hurl, hts]
      · exact ⟨_, rfl⟩
      · exact ⟨_, rfl⟩
      · exact ⟨_, rfl⟩
      · exact absurd ⟨by rw [hurl]; rfl, by rw [hts]; rfl⟩ hmiss
  · intro ft u tsv hft hurl hts
    simp only [json_decode, hft, hurl, hts]
  · intro hft htr
    rcases htr' : lookupA data "translated" with _ | trv
    · rw [htr'] at htr; cases htr
    · simp only [json_decode, hft, htr']
  · intro hft htr hpg hmiss
    rcases hpg' : lookupA data "page" with _ | pv
    · rw [hpg'] at hpg; cases hpg
    · rcases hlc : lookupA data "language_code" with _ | lv <;>
      rcases hti : lookupA data "title" with _ | tv <;>
      rcases hpr : lookupA data "progress" with _ | prv <;>
        simp only [json_decode, hft, htr, hpg', hlc, hti, hpr]
      · exact ⟨_, rfl⟩
      · exact ⟨_, rfl⟩
      · exact ⟨_, rfl⟩
      · exact ⟨_, rfl⟩
      · exact ⟨_, rfl⟩
      · exact ⟨_, rfl⟩
      · exact ⟨_, rfl⟩
      · rcases prv with _ | _ | _ | _ | _ | _ | _ | pr | _ | _ <;>
          first
            | exact ⟨_, rfl⟩
            | exact absurd ⟨by rw [hlc]; rfl, by rw [hti]; rfl, pr, by rw [hpr]⟩ hmiss
  · intro p lc t pr hft htr hpg hlc hti hpr
    refine ⟨?_, ?_, ?_⟩
    · intro hfiles
      simp only [json_decode, hft, htr, hpg, hlc, hti, hpr, hfiles]
    · intro fs hfiles
      simp only [json_decode, hft, htr, hpg, hlc, hti, hpr, hfiles]
    · intro fs hfiles hbad
      obtain ⟨e, he⟩ := addAllFiles_error fs ⟨p, lc, t, pr, []⟩ hbad
      refine ⟨e, ?_⟩
      simp only [json_decode, hft, htr, hpg, hlc, hti, hpr, hfiles, he]
      rfl
  · intro hft htr hpg hws hlc
    rcases hws' : lookupA data "worksheets" with _ | wsv
    · rw [hws'] at hws; cases hws
    · simp only [json_decode, hft, htr, hpg, hws', hlc]
      exact ⟨_, rfl⟩
  · intro lc ws hft htr hpg hws hlc
    constructor
    · simp only [json_decode, hft, htr, hpg, hws, hlc]
    · intro hbad
      obtain ⟨e, he⟩ := addAllWorksheets_error ws ⟨lc, []⟩ hbad
      refine ⟨e, ?_⟩
      simp only [json_decode, hft, htr, hpg, hws, hlc, he]
      rfl
  · intro hft htr hpg hws
    simp only [json_decode, hft, htr, hpg, hws]

theorem C5_witness :
    json_decode [] = Except.ok (PyVal.dict []) :=
  (C5_json_decode_dispatch []).2.2.2.2.2.2.2 rfl rfl rfl rfl

theorem updateA_append {α : Type} {k : String} {l : List (String × α)}
    (h : k ∉ l.map Prod.fst) (v : α) : updateA k v l = l ++ [(k, v)] := by
  induction l with
  | nil => rfl
  | cons p rest ih =>
      simp only [List.map_cons, List.mem_cons] at h
      push_neg at h
      obtain ⟨h1, h2⟩ := h
      show (if p.1 = k then (k, v) :: rest else p :: updateA k v rest)
          = p :: (rest ++ [(k, v)])
      rw [if_neg (Ne.symm h1), ih h2]

theorem ok_bind {ε α β : Type} (a : α) (f : α → Except ε β) :
    ((Except.ok a : Except ε α) >>= f) = f a := rfl

theorem decodeTree_encodeFileInfo {f : FileInfo} (h : f.timestamp.Valid) :
    decodeTree (encodeFileInfo f) = .ok (.fileInfo f) := by
  obtain ⟨ft, u, ts⟩ := f
  have h2 : DateTime.Valid ts := h
  show Except.ok (PyVal.fileInfo
      ⟨ft, u, (fromisoformat (replaceZstr (isoformat ts))).getD epochDT⟩)
    = Except.ok (PyVal.fileInfo ⟨ft, u, ts⟩)
  rw [fromisoformat_replaceZ_isoformat h2]
  rfl

theorem decodeTree_encodeProgress (p : TranslationProgress) :
    decodeTree (encodeProgress p) = .ok (.progress p) := by
  obtain ⟨a, b, c⟩ := p
  rfl

theorem decodeList_files {fs : List (String × FileInfo)}
    (h : ∀ q ∈ fs, q.2.timestamp.Valid) :
    decodeList (fs.map (fun q => encodeFileInfo q.2))
      = .ok (fs.map (fun q => PyVal.fileInfo q.2)) := by
  induction fs with
  | nil => rfl
  | cons q rest ih =>
      simp only [List.map_cons, decodeList]
      rw [decodeTree_encodeFileInfo (h q (List.mem_cons_self q rest))]
      rw [ok_bind, ih (fun r hr => h r (List.mem_cons_of_mem q hr)), ok_bind]

theorem addAllFiles_rebuild :
    ∀ (fs acc : List (String × FileInfo)) (p lc t : String) (pr : TranslationProgress),
      (∀ q ∈ fs, q.1 = q.2.file_type) →
      ((acc ++ fs).map Prod.fst).Nodup →
      addAllFiles ⟨p, lc, t, pr, acc⟩ (fs.map (fun q => PyVal.fileInfo q.2))
        = .ok ⟨p, lc, t, pr, acc ++ fs⟩ := by
  intro fs
  induction fs with
  | nil =>
      intro acc p lc t pr _ _
      simp [addAllFiles]
  | cons q rest ih =>
      intro acc p lc t pr hkey hnd
      have hq : q.1 = q.2.file_type := hkey q (List.mem_cons_self q rest)
      have hnotin : q.1 ∉ acc.map Prod.fst := by
        intro hmem
        rw [List.map_append] at hnd
        exact (List.nodup_append.mp hnd).2.2 hmem (by simp)
      simp only [List.map_cons, addAllFiles]
      have hupd : updateA q.2.file_type q.2 acc = acc ++ [q] := by
        rw [← hq, updateA_append hnotin]
      rw [hupd]
      have hre : acc ++ q :: rest = (acc ++ [q]) ++ rest := by simp
      rw [hre] at hnd ⊢
      exact ih (acc ++ [q]) p lc t pr
        (fun r hr => hkey r (List.mem_cons_of_mem q hr)) hnd

theorem decodeTree_str (x : String) : decodeTree (.str x) = .ok (.str x) := rfl

theorem decodeEntries_nil : decodeEntries [] = .ok [] := rfl

theorem decodeEntries_cons (k : String) (v : PyVal) (rest : List (String × PyVal))
    (v2 : PyVal) (rest2 : List (String × PyVal))
    (h1 : decodeTree v = .ok v2) (h2 : decodeEntries rest = .ok rest2) :
    decodeEntries ((k, v) :: rest) = .ok ((k, v2) :: rest2) := by
  simp only [decodeEntries]
  rw [h1, ok_bind, h2, ok_bind]

theorem decodeTree_encodeWorksheetInfo {w : WorksheetInfo}
    (hfk : ∀ q ∈ w._files, q.1 = q.2.file_type)
    (hnd : (w._files.map Prod.fst).Nodup)
    (hts : ∀ q ∈ w._files, q.2.timestamp.Valid) :
    decodeTree (encodeWorksheetInfo w) = .ok (.worksheetInfo w) := by
  obtain ⟨p, lc, t, pr, files⟩ := w
  by_cases hf : files = []
  · subst hf
    rfl
  · have hencode : encodeWorksheetInfo ⟨p, lc, t, pr, files⟩
        = .dict [("page", .str p), ("language_code", .str lc), ("title", .str t),
                 ("progress", encodeProgress pr),
                 ("files", .list (files.map (fun q => encodeFileInfo q.2)))] := by
      simp [encodeWorksheetInfo, hf]
    rw [hencode]
    have hfiles2 : decodeTree (.list (files.map (fun q => encodeFileInfo q.2)))
        = .ok (.list (files.map (fun q => PyVal.fileInfo q.2))) := by
      simp only [decodeTree]
      rw [decodeList_files hts, ok_bind]
    have hentries : decodeEntries
        [("page", .str p), ("language_code", .str lc), ("title", .str t),
         ("progress", encodeProgress pr),
         ("files", .list (files.map (fun q => encodeFileInfo q.2)))]
        = .ok [("page", .str p), ("language_code", .str lc), ("title", .str t),
               ("progress", .progress pr),
               ("files", .list (files.map (fun q => PyVal.fileInfo q.2)))] :=
      decodeEntries_cons _ _ _ _ _ (decodeTree_str p)
        (decodeEntries_cons _ _ _ _ _ (decodeTree_str lc)
          (decodeEntries_cons _ _ _ _ _ (decodeTree_str t)
            (decodeEntries_cons _ _ _ _ _ (decodeTree_encodeProgress pr)
              (decodeEntries_cons _ _ _ _ _ hfiles2 decodeEntries_nil))))
    show (decodeEntries
        [("page", .str p), ("language_code", .str lc), ("title", .str t),
         ("progress", encodeProgress pr),
         ("files", .list (files.map (fun q => encodeFileInfo q.2)))] >>= json_decode)
      = Except.ok (.worksheetInfo ⟨p, lc, t, pr, files⟩)
    rw [hentries, ok_bind]
    show (addAllFiles ⟨p, lc, t, pr, []⟩
        (files.map (fun q => PyVal.fileInfo q.2))).map PyVal.worksheetInfo
      = Except.ok (.worksheetInfo ⟨p, lc, t, pr, files⟩)
    rw [addAllFiles_rebuild files [] p lc t pr hfk hnd]
    rfl

theorem decodeList_worksheets {ws : List (String × WorksheetInfo)}
    (h : ∀ q ∈ ws,
        (∀ r ∈ q.2._files, r.1 = r.2.file_type) ∧
        (q.2._files.map Prod.fst).Nodup ∧
        (∀ r ∈ q.2._files, r.2.timestamp.Valid)) :
    decodeList (ws.map (fun q => encodeWorksheetInfo q.2))
      = .ok (ws.map (fun q => PyVal.worksheetInfo q.2)) := by
  induction ws with
  | nil => rfl
  | cons q rest ih =>
      obtain ⟨h1, h2, h3⟩ := h q (List.mem_cons_self q rest)
      simp only [List.map_cons, decodeList]
      rw [decodeTree_encodeWorksheetInfo h1 h2 h3, ok_bind,
        ih (fun r hr => h r (List.mem_cons_of_mem q hr)), ok_bind]

theorem addAllWorksheets_rebuild :
    ∀ (ws acc : List (String × WorksheetInfo)) (lc : String),
      (∀ q ∈ ws, q.1 = q.2.page) →
      ((acc ++ ws).map Prod.fst).Nodup →
      addAllWorksheets ⟨lc, acc⟩ (ws.map (fun q => PyVal.worksheetInfo q.2))
        = .ok ⟨lc, acc ++ ws⟩ := by
  intro ws
  induction ws with
  | nil =>
      intro acc lc _ _
      simp [addAllWorksheets]
  | cons q rest ih =>
      intro acc lc hkey hnd
      have hq : q.1 = q.2.page := hkey q (List.mem_cons_self q rest)
      have hnotin : q.1 ∉ acc.map Prod.fst := by
        intro hmem
        rw [List.map_append] at hnd
        exact (List.nodup_append.mp hnd).2.2 hmem (by simp)
      simp only [List.map_cons, addAllWorksheets]
      have hupd : updateA q.2.page q.2 acc = acc ++ [q] := by
        rw [← hq, updateA_append hnotin]
      rw [hupd]
      have hre : acc ++ q :: rest = (acc ++ [q]) ++ rest := by simp
      rw [hre] at hnd ⊢
      exact ih (acc ++ [q]) lc
        (fun r hr => hkey r (List.mem_cons_of_mem q hr)) hnd

/-- C2 fails as stated for arbitrary LanguageInfo values: a worksheet stored
under a key different from its own `page` ("A" here, with `page = "B"`)
decodes to a mapping keyed by `page`, not equal to the original. -/
theorem C2_counterexample :
    decodeTree (encodeLanguageInfo
        ⟨"de", [("A", ⟨"B", "de", "t", ⟨1, 0, 1⟩, []⟩)]⟩)
      ≠ Except.ok (PyVal.languageInfo
        ⟨"de", [("A", ⟨"B", "de", "t", ⟨1, 0, 1⟩, []⟩)]⟩) := by
  intro h
  have he : decodeTree (encodeLanguageInfo
        ⟨"de", [("A", ⟨"B", "de", "t", ⟨1, 0, 1⟩, []⟩)]⟩)
      = Except.ok (PyVal.languageInfo
        ⟨"de", [("B", ⟨"B", "de", "t", ⟨1, 0, 1⟩, []⟩)]⟩) := rfl
  rw [he] at h
  simp only [Except.ok.injEq, PyVal.languageInfo.injEq, LanguageInfo.mk.injEq,
    List.cons.injEq, Prod.mk.injEq] at h
  exact absurd h.2.1.1 (by decide)

/-- C2 (amended): for a LanguageInfo whose worksheet entries are keyed by
their own `page` (as `add_worksheet_info` is invoked in practice), with the
dict-key uniqueness Python guarantees, files keyed by their `file_type` (as
`add_file_info` guarantees) and valid timestamps, decoding the encoder's
output reproduces the object field-by-field. -/
theorem C2_roundtrip_keyed (L : LanguageInfo)
    (hpage : ∀ q ∈ L.worksheets, q.1 = q.2.page)
    (hnd : (L.worksheets.map Prod.fst).Nodup)
    (hw : ∀ q ∈ L.worksheets,
        (∀ r ∈ q.2._files, r.1 = r.2.file_type) ∧
        (q.2._files.map Prod.fst).Nodup ∧
        (∀ r ∈ q.2._files, r.2.timestamp.Valid)) :
    decodeTree (encodeLanguageInfo L) = .ok (.languageInfo L) := by
  obtain ⟨lc, ws⟩ := L
  have hlist := decodeList_worksheets hw
  have hentries : decodeEntries
      [("language_code", .str lc),
       ("worksheets", .list (ws.map (fun q => encodeWorksheetInfo q.2)))]
      = .ok [("language_code", .str lc),
             ("worksheets", .list (ws.map (fun q => PyVal.worksheetInfo q.2)))] :=
    decodeEntries_cons _ _ _ _ _ (decodeTree_str lc)
      (decodeEntries_cons _ _ _ _ _
        (by simp only [decodeTree]; rw [hlist, ok_bind]) decodeEntries_nil)
  show (decodeEntries
      [("language_code", .str lc),
       ("worksheets", .list (ws.map (fun q => encodeWorksheetInfo q.2)))]
      >>= json_decode)
    = Except.ok (.languageInfo ⟨lc, ws⟩)
  rw [hentries, ok_bind]
  show (addAllWorksheets ⟨lc, []⟩
      (ws.map (fun q => PyVal.worksheetInfo q.2))).map PyVal.languageInfo
    = Except.ok (.languageInfo ⟨lc, ws⟩)
  rw [addAllWorksheets_rebuild ws [] lc hpage hnd]
  rfl

theorem C2_witness :
    decodeTree (encodeLanguageInfo
        ⟨"de", [("Forgiveness", ⟨"Forgiveness", "de", "Vergebung", ⟨42, 1, 44⟩,
          [("pdf", ⟨"pdf", "u1", ⟨2021, 3, 14, 15, 9, 26, 0, none⟩⟩),
           ("odt", ⟨"odt", "u2", ⟨2021, 3, 14, 15, 9, 26, 535897, some 120⟩⟩)]⟩)]⟩)
      = Except.ok (PyVal.languageInfo
        ⟨"de", [("Forgiveness", ⟨"Forgiveness", "de", "Vergebung", ⟨42, 1, 44⟩,
          [("pdf", ⟨"pdf", "u1", ⟨2021, 3, 14, 15, 9, 26, 0, none⟩⟩),
           ("odt", ⟨"odt", "u2", ⟨2021, 3, 14, 15, 9, 26, 535897, some 120⟩⟩)]⟩)]⟩) :=
  C2_roundtrip_keyed _ (by decide) (by decide) (by decide)

theorem C1_witness :
    (LanguageInfo.compare
        ⟨"de", [("Forgiveness", ⟨"Forgiveness", "de", "V", ⟨1, 0, 1⟩,
          [("pdf", ⟨"pdf", "u", epochDT⟩), ("odt", ⟨"odt", "u", epochDT⟩)]⟩)]⟩
        (PyVal.languageInfo
          ⟨"de", [("Forgiveness", ⟨"Forgiveness", "de", "V", ⟨1, 0, 1⟩,
            [("pdf", ⟨"pdf", "u", epochDT⟩)]⟩)]⟩)).count
      ("Forgiveness", ChangeType.NEW_ODT) = 1 := by
  have h := (C1_compare_events
    ⟨"de", [("Forgiveness", ⟨"Forgiveness", "de", "V", ⟨1, 0, 1⟩,
      [("pdf", ⟨"pdf", "u", epochDT⟩), ("odt", ⟨"odt", "u", epochDT⟩)]⟩)]⟩
    ⟨"de", [("Forgiveness", ⟨"Forgiveness", "de", "V", ⟨1, 0, 1⟩,
      [("pdf", ⟨"pdf", "u", epochDT⟩)]⟩)]⟩
    (by decide) (by decide) "Forgiveness").2.2.2.2.1
  rw [h]
  decide

end PWT

